import Mathlib

/-!
Verification of the array-creation and memory-layout subsystem declared in
chainerx_cc/chainerx/routines/creation.h (ChainerX).

The repository provides the header only: every function is declared there with
its documentation, but the bodies live elsewhere.  The definitions below are
therefore modelled from the specification's description of each operation
(shape/stride arithmetic, the six generator operation contracts, the
construction primitives and the contiguity helpers), staying faithful to the
header's own doc comments where they constrain behaviour.

Modelling conventions:
 - Shape is a list of dimension sizes, Strides a list of signed byte strides.
 - Real (floating) arithmetic of the engine is modelled exactly over the
   rationals; integer dtypes over the integers.
 - Storage is a store mapping a storage id to a byte-addressed buffer of
   element values; an array handle carries shape, strides, dtype, byte
   offset, device id and storage id.  Allocation is modelled by passing a
   fresh storage id explicitly.
-/

namespace Chainerx

/-- Element type tag, fixing the element byte width (chainerx/dtype.h). -/
inductive Dtype where
  | int8
  | int16
  | int32
  | int64
  | float32
  | float64
deriving DecidableEq

/-- Byte size of one element of the given dtype. -/
def Dtype.itemsize : Dtype → Nat
  | .int8 => 1
  | .int16 => 2
  | .int32 => 4
  | .int64 => 8
  | .float32 => 4
  | .float64 => 8

/-- Whether the dtype is a floating-point kind. -/
def Dtype.isFloating : Dtype → Bool
  | .float32 => true
  | .float64 => true
  | _ => false

theorem Dtype.itemsize_pos (dt : Dtype) : 0 < dt.itemsize := by
  cases dt <;> simp [Dtype.itemsize]

/-- Shape: ordered sequence of non-negative dimension sizes. -/
abbrev Shape := List Nat

/-- Strides: ordered sequence of signed byte strides, one per dimension. -/
abbrev Strides := List Int

/-- Canonical row-major (C-contiguous) byte strides for a shape and element
size: the stride of each dimension is the item size times the product of all
later dimensions. -/
def contiguousStrides (itemSize : Nat) : Shape → Strides
  | [] => []
  | _ :: tl => ((itemSize * tl.prod : Nat) : Int) :: contiguousStrides itemSize tl

/-- Modelled from the spec: the body of internal::GetRequiredBytes is not in
the repository (only its declaration in creation.h).  Per the spec it returns
the minimum buffer size covering all addressable elements: 0 as soon as some
dimension has size 0 (no element is ever addressed), and otherwise one item
plus, per dimension, the distance spanned by that dimension
((size-1) * |stride|).  The scalar shape gives exactly the item size. -/
def GetRequiredBytes (shape : Shape) (strides : Strides) (itemSize : Nat) : Nat :=
  if shape.prod = 0 then 0
  else itemSize + (List.zipWith (fun (d : Nat) (s : Int) => (d - 1) * s.natAbs) shape strides).sum

/-- Row-major rank of a multi-index: the linear position of the element among
all elements enumerated in row-major order. -/
def rankOf : Shape → List Nat → Nat
  | _ :: tl, i :: is => i * tl.prod + rankOf tl is
  | _, _ => 0

/-- Inverse of rankOf for in-range ranks: decodes a linear row-major position
back into a multi-index. -/
def unrank : Shape → Nat → List Nat
  | [], _ => []
  | _ :: tl, r => r / tl.prod :: unrank tl (r % tl.prod)

/-- Whether a multi-index is within bounds of a shape (same length, each
coordinate below the corresponding dimension size). -/
def validIdx : Shape → List Nat → Bool
  | [], [] => true
  | d :: tl, i :: is => decide (i < d) && validIdx tl is
  | _, _ => false

theorem prod_pos_of_validIdx : ∀ (shape : Shape) (idx : List Nat),
    validIdx shape idx = true → 0 < shape.prod := by
  intro shape
  induction shape with
  | nil => intro idx _; simp
  | cons d tl ih =>
    intro idx h
    cases idx with
    | nil => simp [validIdx] at h
    | cons i is =>
      simp only [validIdx, Bool.and_eq_true, decide_eq_true_eq] at h
      have htl := ih is h.2
      have hd : 0 < d := Nat.lt_of_le_of_lt (Nat.zero_le i) h.1
      simpa using Nat.mul_pos hd htl

theorem rankOf_lt : ∀ (shape : Shape) (idx : List Nat),
    validIdx shape idx = true → rankOf shape idx < shape.prod := by
  intro shape
  induction shape with
  | nil =>
    intro idx h
    cases idx with
    | nil => simp [rankOf]
    | cons i is => simp [validIdx] at h
  | cons d tl ih =>
    intro idx h
    cases idx with
    | nil => simp [validIdx] at h
    | cons i is =>
      simp only [validIdx, Bool.and_eq_true, decide_eq_true_eq] at h
      have h1 : rankOf tl is < tl.prod := ih is h.2
      have h2 : i + 1 ≤ d := h.1
      calc rankOf (d :: tl) (i :: is) = i * tl.prod + rankOf tl is := rfl
        _ < i * tl.prod + tl.prod := by omega
        _ = (i + 1) * tl.prod := by ring
        _ ≤ d * tl.prod := Nat.mul_le_mul_right _ h2
        _ = (d :: tl).prod := by simp

theorem unrank_rankOf : ∀ (shape : Shape) (idx : List Nat),
    validIdx shape idx = true → unrank shape (rankOf shape idx) = idx := by
  intro shape
  induction shape with
  | nil =>
    intro idx h
    cases idx with
    | nil => rfl
    | cons i is => simp [validIdx] at h
  | cons d tl ih =>
    intro idx h
    cases idx with
    | nil => simp [validIdx] at h
    | cons i is =>
      simp only [validIdx, Bool.and_eq_true, decide_eq_true_eq] at h
      have hP : 0 < tl.prod := prod_pos_of_validIdx tl is h.2
      have hr : rankOf tl is < tl.prod := rankOf_lt tl is h.2
      have hcomm : i * tl.prod + rankOf tl is = tl.prod * i + rankOf tl is := by ring
      have hdiv : (i * tl.prod + rankOf tl is) / tl.prod = i := by
        rw [hcomm, Nat.mul_add_div hP, Nat.div_eq_of_lt hr]
        omega
      have hmod : (i * tl.prod + rankOf tl is) % tl.prod = rankOf tl is := by
        rw [hcomm, Nat.mul_add_mod, Nat.mod_eq_of_lt hr]
      show (i * tl.prod + rankOf tl is) / tl.prod ::
          unrank tl ((i * tl.prod + rankOf tl is) % tl.prod) = i :: is
      rw [hdiv, hmod, ih is h.2]

/-- Ceiling of the integer division a / b, exact over the integers
(used for the Arange length formula). -/
def ceilDiv (a b : Int) : Int :=
  if 0 < b then -((-a) / b) else -(a / (-b))

theorem sum_zipWith_contiguous : ∀ (shape : Shape) (b : Nat), shape.prod ≠ 0 →
    b + (List.zipWith (fun (d : Nat) (s : Int) => (d - 1) * s.natAbs) shape
      (contiguousStrides b shape)).sum = b * shape.prod := by
  intro shape
  induction shape with
  | nil => intro b _; simp [contiguousStrides]
  | cons d tl ih =>
    intro b h
    have hd : d ≠ 0 := by
      intro h0
      exact h (by simp [h0])
    have htl : tl.prod ≠ 0 := by
      intro h0
      exact h (by simp [h0])
    obtain ⟨e, rfl⟩ : ∃ e, d = e + 1 := ⟨d - 1, by omega⟩
    have hIH := ih b htl
    show b + ((e + 1 - 1) * (((b * tl.prod : Nat) : Int)).natAbs +
        (List.zipWith _ tl (contiguousStrides b tl)).sum) = b * ((e + 1) * tl.prod)
    rw [Int.natAbs_ofNat]
    calc b + ((e + 1 - 1) * (b * tl.prod) +
          (List.zipWith (fun (d : Nat) (s : Int) => (d - 1) * s.natAbs) tl
            (contiguousStrides b tl)).sum)
        = e * (b * tl.prod) + (b +
          (List.zipWith (fun (d : Nat) (s : Int) => (d - 1) * s.natAbs) tl
            (contiguousStrides b tl)).sum) := by rw [Nat.add_sub_cancel]; ring
      _ = e * (b * tl.prod) + b * tl.prod := by rw [hIH]
      _ = b * ((e + 1) * tl.prod) := by ring

/-- Array handle (chainerx::Array as used by creation.h): shape, strides,
dtype, byte offset, owning device id and storage id.  The element bytes
themselves live in a separate store, so that storage sharing and aliasing
between handles is expressible. -/
structure NdArray where
  shape : Shape
  strides : Strides
  dtype : Dtype
  offset : Int
  device : Nat
  sid : Nat
deriving DecidableEq

/-- The process-wide storage: maps a storage id to a byte-addressed buffer of
element values (the value stored at the byte address where an element
starts). -/
def Store := Nat → Int → Int

/-- Byte address of the element at a multi-index, per the strided address
formula of the data model: base offset plus the sum of index times stride per
dimension. -/
def addrOf (a : NdArray) (idx : List Nat) : Int :=
  a.offset + (List.zipWith (fun (i : Nat) (s : Int) => (i : Int) * s) idx a.strides).sum

/-- Value of the element of array a at a multi-index, read through the store. -/
def elemAt (st : Store) (a : NdArray) (idx : List Nat) : Int :=
  st a.sid (addrOf a idx)

/-- C-contiguity: strides exactly equal the canonical row-major strides for
the shape and item size, with zero byte offset. -/
def NdArray.IsContiguous (a : NdArray) : Bool :=
  decide (a.strides = contiguousStrides a.dtype.itemsize a.shape) && decide (a.offset = 0)

/-- Replace the buffer of one storage id in the store, leaving the others. -/
def writeStore (st : Store) (sid : Nat) (buf : Int → Int) : Store :=
  fun s => if s = sid then buf else st s

/-- Device-side fill of a freshly allocated contiguous output array: the
buffer of the output's storage is written so that the element at each
multi-index holds the value prescribed by f. -/
def fillByIndex (st : Store) (out : NdArray) (f : List Nat → Int) : Store :=
  writeStore st out.sid (fun addr => f (unrank out.shape (addr.toNat / out.dtype.itemsize)))

theorem zipWith_mul_contiguous : ∀ (shape : Shape) (idx : List Nat) (b : Nat),
    (List.zipWith (fun (i : Nat) (s : Int) => (i : Int) * s) idx
      (contiguousStrides b shape)).sum = (b : Int) * rankOf shape idx := by
  intro shape
  induction shape with
  | nil =>
    intro idx b
    cases idx <;> simp [contiguousStrides, rankOf]
  | cons d tl ih =>
    intro idx b
    cases idx with
    | nil => simp [contiguousStrides, rankOf]
    | cons i is =>
      show (i : Int) * ((b * tl.prod : Nat) : Int) +
          (List.zipWith _ is (contiguousStrides b tl)).sum =
          (b : Int) * ((i * tl.prod + rankOf tl is : Nat) : Int)
      rw [ih is b]
      push_cast
      ring

theorem addrOf_contiguous (a : NdArray) (idx : List Nat) (h : a.IsContiguous = true) :
    addrOf a idx = (a.dtype.itemsize : Int) * rankOf a.shape idx := by
  simp only [NdArray.IsContiguous, Bool.and_eq_true, decide_eq_true_eq] at h
  rw [addrOf, h.1, h.2, zipWith_mul_contiguous]
  ring

theorem elemAt_fillByIndex (st : Store) (out : NdArray) (f : List Nat → Int)
    (idx : List Nat) (hc : out.IsContiguous = true) (hv : validIdx out.shape idx = true) :
    elemAt (fillByIndex st out f) out idx = f idx := by
  have haddr := addrOf_contiguous out idx hc
  have hb : 0 < out.dtype.itemsize := Dtype.itemsize_pos out.dtype
  have htn : ((out.dtype.itemsize : Int) * rankOf out.shape idx).toNat =
      out.dtype.itemsize * rankOf out.shape idx := by
    rw [← Int.natCast_mul]
    exact Int.toNat_natCast _
  rw [elemAt, fillByIndex, writeStore]
  rw [if_pos rfl]
  show f (unrank out.shape ((addrOf out idx).toNat / out.dtype.itemsize)) = f idx
  rw [haddr, htn, Nat.mul_div_cancel_left _ hb, unrank_rankOf out.shape idx hv]

theorem elemAt_writeStore_ne (st : Store) (a : NdArray) (sid : Nat) (buf : Int → Int)
    (idx : List Nat) (h : sid ≠ a.sid) :
    elemAt (writeStore st sid buf) a idx = elemAt st a idx := by
  rw [elemAt, elemAt, writeStore]
  simp [Ne.symm h]

theorem elemAt_fillByIndex_other (st : Store) (out a : NdArray) (f : List Nat → Int)
    (idx : List Nat) (h : out.sid ≠ a.sid) :
    elemAt (fillByIndex st out f) a idx = elemAt st a idx :=
  elemAt_writeStore_ne st a out.sid _ idx h

/-- Modelled from the spec: the process-wide default device resolved by
GetDefaultDevice (declared in chainerx/device.h, not in the repository),
modelled as a fixed device id. -/
def GetDefaultDevice : Nat := 0

/-- Modelled from the spec: the floating default dtype used when a dtype
argument is omitted (the dtype machinery is not in the repository). -/
def defaultFloatDtype : Dtype := .float32

/-- Modelled from the spec: the body of Empty is not in the repository.  It
allocates uninitialized device storage with the canonical contiguous strides
for the shape; allocation is modelled by the caller-supplied fresh storage
id.  Contents are unspecified until written, so the store is untouched. -/
def Empty (shape : Shape) (dtype : Dtype) (device : Nat) (fresh : Nat) : NdArray :=
  { shape := shape
    strides := contiguousStrides dtype.itemsize shape
    dtype := dtype
    offset := 0
    device := device
    sid := fresh }

/-- Modelled from the spec: Full allocates via Empty and fills every element
with the constant fill value. -/
def Full (shape : Shape) (fill : Int) (dtype : Dtype) (device : Nat)
    (st : Store) (fresh : Nat) : NdArray × Store :=
  let out := Empty shape dtype device fresh
  (out, fillByIndex st out (fun _ => fill))

/-- Modelled from the spec and the header comment on EmptyLike: reads shape
and dtype off the source array, ignores its device, and allocates on the
device passed as argument (the C++ default argument is GetDefaultDevice). -/
def EmptyLike (a : NdArray) (device : Nat) (fresh : Nat) : NdArray :=
  Empty a.shape a.dtype device fresh

/-- Modelled from the spec: FullLike reads shape and dtype off the source
array (ignoring its device) and delegates to Full on the given device. -/
def FullLike (a : NdArray) (fill : Int) (device : Nat) (st : Store) (fresh : Nat) :
    NdArray × Store :=
  Full a.shape fill a.dtype device st fresh

/-- Modelled from the spec: ZerosLike is FullLike with fill value 0. -/
def ZerosLike (a : NdArray) (device : Nat) (st : Store) (fresh : Nat) : NdArray × Store :=
  FullLike a 0 device st fresh

/-- Modelled from the spec: OnesLike is FullLike with fill value 1. -/
def OnesLike (a : NdArray) (device : Nat) (st : Store) (fresh : Nat) : NdArray × Store :=
  FullLike a 1 device st fresh

/-- Modelled from the spec: the CopyOp contract fills the output elementwise
with the source's elements; shapes and dtypes must already match. -/
def CopyOpCall (st : Store) (a out : NdArray) : Store :=
  fillByIndex st out (fun idx => elemAt st a idx)

/-- Modelled from the spec: Copy allocates a new C-contiguous array with the
source's shape and dtype on the source's own device and fills it through the
Copy operation. -/
def Copy (a : NdArray) (st : Store) (fresh : Nat) : NdArray × Store :=
  let out := EmptyLike a a.device fresh
  (out, CopyOpCall st a out)

/-- Modelled from the spec: internal::AsContiguous returns the input
unchanged when it is already C-contiguous with the requested dtype, and
otherwise allocates a C-contiguous array of the same shape on the input's
device and copies/casts into it. -/
def AsContiguous (a : NdArray) (dtype : Dtype) (st : Store) (fresh : Nat) :
    NdArray × Store :=
  if a.IsContiguous && a.dtype == dtype then (a, st)
  else
    let out := Empty a.shape dtype a.device fresh
    (out, CopyOpCall st a out)

/-- Modelled from the spec and the header comment on AsContiguousArray: pass
through an already C-contiguous array of matching dtype unchanged, except
that a 0-dimensional input is reshaped (sharing storage) to shape [1]; a
non-contiguous or dtype-mismatched input is rebuilt via AsContiguous and then
carries shape [1] instead of the 0-dimensional shape. -/
def AsContiguousArray (a : NdArray) (dt? : Option Dtype) (st : Store) (fresh : Nat) :
    NdArray × Store :=
  let dt := dt?.getD a.dtype
  if a.IsContiguous && a.dtype == dt then
    if a.shape = [] then
      ({ a with shape := [1], strides := [(dt.itemsize : Nat)] }, st)
    else (a, st)
  else
    let shape := if a.shape = [] then [1] else a.shape
    let r := AsContiguous a dt st fresh
    ({ r.1 with shape := shape, strides := contiguousStrides dt.itemsize shape }, r.2)

/-- Modelled from the spec: the EyeOp contract fills a 2-dimensional output
with ones along the k-th diagonal and zeros elsewhere. -/
def EyeOpCall (st : Store) (k : Int) (out : NdArray) : Store :=
  fillByIndex st out (fun idx =>
    match idx with
    | [i, j] => if (i : Int) + k = (j : Int) then 1 else 0
    | _ => 0)

/-- Modelled from the spec: the Eye entry point defaults m to n, k to 0 and
dtype to the floating default, allocates an n-by-m array via Empty and
invokes the Eye operation. -/
def Eye (n : Nat) (m : Option Nat) (k : Option Int) (dtype : Option Dtype)
    (device : Nat) (st : Store) (fresh : Nat) : NdArray × Store :=
  let mv := m.getD n
  let kv := k.getD 0
  let dt := dtype.getD defaultFloatDtype
  let out := Empty [n, mv] dt device fresh
  (out, EyeOpCall st kv out)

/-- Modelled from the spec: the DiagflatOp contract writes the 1-dimensional
source onto the k-th diagonal of the 2-dimensional output and zeros
elsewhere; on the diagonal the source position is the smaller coordinate. -/
def DiagflatOpCall (st : Store) (v : NdArray) (k : Int) (out : NdArray) : Store :=
  fillByIndex st out (fun idx =>
    match idx with
    | [i, j] => if (j : Int) - (i : Int) = k then elemAt st v [min i j] else 0
    | _ => 0)

/-- Modelled from the spec: the Diagflat entry point allocates a square
(n+|k|)-by-(n+|k|) output via Empty on the device passed as argument (the
C++ default argument is GetDefaultDevice; the header notes the source
array's own device is deliberately not used) and invokes the Diagflat
operation. -/
def Diagflat (v : NdArray) (k : Int) (device : Nat) (st : Store) (fresh : Nat) :
    NdArray × Store :=
  let n := v.shape.prod
  let side := n + k.natAbs
  let out := Empty [side, side] v.dtype device fresh
  (out, DiagflatOpCall st v k out)

/-- Modelled from the spec: for a 1-dimensional source, Diag behaves as
Diagflat (thin caller allocating on the device passed as argument).  The
spec does not describe Diag on higher-dimensional input; that case is
modelled as returning the input view unchanged and is outside every claim
considered here. -/
def Diag (v : NdArray) (k : Int) (device : Nat) (st : Store) (fresh : Nat) :
    NdArray × Store :=
  if v.shape.length = 1 then Diagflat v k device st fresh
  else (v, st)

/-- Error taxonomy of the subsystem, per the spec's error handling design. -/
inductive ChxError where
  | invalidArgument
deriving DecidableEq

/-- Modelled from the spec: the integer-dtype instance of Arange.  It fails
with an invalid-argument condition when step is zero; otherwise it yields the
1-dimensional sequence of length ceil((stop - start) / step) clamped below at
zero, whose element i is start + i * step. -/
def Arange (start stop step : Int) : Except ChxError (List Int) :=
  if step = 0 then Except.error ChxError.invalidArgument
  else
    let len := (max 0 (ceilDiv (stop - start) step)).toNat
    Except.ok ((List.range len).map (fun (i : Nat) => start + (i : Int) * step))

/-- Modelled from the spec: the Linspace entry point over exact rational
arithmetic (the engine computes in floating point; the evenly spaced values
it is specified to produce are modelled exactly).  For n elements the step
is (stop-start)/(n-1) with the endpoint included and (stop-start)/n
otherwise; for n = 1 the single element is start. -/
def Linspace (start stop : ℚ) (n : Nat) (endpoint : Bool) : List ℚ :=
  if n = 1 then [start]
  else
    let step := if endpoint then (stop - start) / ((n : ℚ) - 1) else (stop - start) / (n : ℚ)
    (List.range n).map (fun (i : Nat) => start + (i : ℚ) * step)

theorem floor_ratCast_div (a b : Int) (hb : 0 < b) : ⌊(a : ℚ) / (b : ℚ)⌋ = a / b := by
  have h2 := Rat.floor_intCast_div_natCast a b.toNat
  have h3 : ((b.toNat : ℕ) : ℚ) = (b : ℚ) := by
    rw [← Int.cast_natCast, Int.toNat_of_nonneg (le_of_lt hb)]
  rw [h3] at h2
  rw [h2, Int.toNat_of_nonneg (le_of_lt hb)]

theorem ceilDiv_eq_ceil (a b : Int) (hb : b ≠ 0) : ceilDiv a b = ⌈(a : ℚ) / (b : ℚ)⌉ := by
  rcases lt_or_gt_of_ne hb with hneg | hpos
  · rw [ceilDiv, if_neg (by omega)]
    have hpos2 : (0 : ℤ) < -b := by omega
    have hcast : (a : ℚ) / (b : ℚ) = -(((a : ℤ) : ℚ) / ((-b : ℤ) : ℚ)) := by
      push_cast
      ring_nf
    rw [hcast, Int.ceil_neg, floor_ratCast_div a (-b) hpos2]
  · rw [ceilDiv, if_pos hpos]
    have hcast : (a : ℚ) / (b : ℚ) = -(((-a : ℤ) : ℚ) / ((b : ℤ) : ℚ)) := by
      push_cast
      ring
    rw [hcast, Int.ceil_neg, floor_ratCast_div (-a) b hpos]

theorem getD_range_map {α : Type} (f : Nat → α) (d : α) (n i : Nat) (h : i < n) :
    ((List.range n).map f).getD i d = f i := by
  rw [List.getD_eq_getElem?_getD, List.getElem?_map, List.getElem?_range h]
  rfl

theorem Empty_isContiguous (shape : Shape) (dt : Dtype) (dev fresh : Nat) :
    (Empty shape dt dev fresh).IsContiguous = true := by
  simp [Empty, NdArray.IsContiguous]

/-- Claim C1: on the canonical row-major contiguous strides for a shape,
GetRequiredBytes returns the item size times the product of the dimensions;
for the 0-dimensional scalar shape it returns exactly the item size, and for
any shape containing a zero-size dimension it returns the fixed value 0
whatever the strides and the other dimensions are. -/
theorem getRequiredBytes_contiguous (shape : Shape) (b : Nat) :
    GetRequiredBytes shape (contiguousStrides b shape) b = b * shape.prod ∧
    GetRequiredBytes [] (contiguousStrides b []) b = b ∧
    (∀ strides : Strides, shape.prod = 0 → GetRequiredBytes shape strides b = 0) := by
  refine ⟨?_, ?_, ?_⟩
  · by_cases h : shape.prod = 0
    · rw [GetRequiredBytes, if_pos h, h, Nat.mul_zero]
    · rw [GetRequiredBytes, if_neg h]
      exact sum_zipWith_contiguous shape b h
  · rw [GetRequiredBytes]
    simp [contiguousStrides]
  · intro strides h
    rw [GetRequiredBytes, if_pos h]

theorem getRequiredBytes_contiguous_witness :
    List.prod [2, 0, 3] = 0 ∧ GetRequiredBytes [2, 0, 3] [24, 0, 4] 4 = 0 :=
  ⟨by decide, (getRequiredBytes_contiguous [2, 0, 3] 4).2.2 [24, 0, 4] (by decide)⟩

/-- Claim C6: Arange fails with the invalid-argument condition exactly when
the step is zero, reported synchronously as a failure outcome to the caller;
for every nonzero step it succeeds. -/
theorem arange_zero_step (start stop step : Int) :
    Arange start stop 0 = Except.error ChxError.invalidArgument ∧
    (step ≠ 0 → ∃ l : List Int, Arange start stop step = Except.ok l) := by
  constructor
  · rw [Arange, if_pos rfl]
  · intro h
    exact ⟨_, by rw [Arange, if_neg h]⟩

theorem arange_zero_step_witness :
    (1 : Int) ≠ 0 ∧ ∃ l : List Int, Arange 5 0 1 = Except.ok l :=
  ⟨by decide, (arange_zero_step 5 0 1).2 (by decide)⟩

/-- Claim C2 counterexample: the claim asserts that for every nonzero step
Arange returns an array of length ceil((stop - start) / step); at
start = 5, stop = 0, step = 1 that ceiling is -5, while Arange returns the
empty sequence (length 0), so the universally quantified claim is false. -/
theorem arange_length_counterexample :
    ¬ (∀ start stop step : Int, step ≠ 0 → ∃ l : List Int,
        Arange start stop step = Except.ok l ∧
        (l.length : Int) = ceilDiv (stop - start) step) := by
  intro h
  obtain ⟨l, hl, hlen⟩ := h 5 0 1 (by decide)
  have h0 : Arange 5 0 1 = Except.ok ([] : List Int) := rfl
  have hinj := h0.symm.trans hl
  injection hinj with hval
  rw [← hval] at hlen
  have hcd : ceilDiv ((0 : Int) - 5) 1 = -5 := by decide
  rw [hcd] at hlen
  exact absurd hlen (by decide)

/-- Claim C2 (amended): for every nonzero step, the integer-dtype Arange
succeeds and returns the sequence of length max(0, ceil((stop-start)/step))
whose element i is start + i * step, where ceilDiv is the exact ceiling of
the rational quotient; in particular Arange 0 10 2 is [0,2,4,6,8],
Arange 0 10 3 is [0,3,6,9] and Arange 5 0 (-1) is [5,4,3,2,1]. -/
theorem arange_spec (start stop step : Int) (h : step ≠ 0) :
    (∃ l : List Int,
      Arange start stop step = Except.ok l ∧
      l.length = (max 0 (ceilDiv (stop - start) step)).toNat ∧
      (∀ i : Nat, i < l.length → l.getD i 0 = start + (i : Int) * step)) ∧
    ceilDiv (stop - start) step = ⌈((stop - start : Int) : ℚ) / ((step : Int) : ℚ)⌉ ∧
    Arange 0 10 2 = Except.ok [0, 2, 4, 6, 8] ∧
    Arange 0 10 3 = Except.ok [0, 3, 6, 9] ∧
    Arange 5 0 (-1) = Except.ok [5, 4, 3, 2, 1] := by
  constructor
  · refine ⟨(List.range (max 0 (ceilDiv (stop - start) step)).toNat).map
      (fun (i : Nat) => start + (i : Int) * step), ?_, ?_, ?_⟩
    · rw [Arange, if_neg h]
    · simp
    · intro i hi
      simp only [List.length_map, List.length_range] at hi
      exact getD_range_map (fun (i : Nat) => start + (i : Int) * step) 0 _ i hi
  · exact ⟨ceilDiv_eq_ceil _ _ h, rfl, rfl, rfl⟩

theorem arange_spec_witness :
    (2 : Int) ≠ 0 ∧ Arange 0 10 2 = Except.ok [0, 2, 4, 6, 8] :=
  ⟨by decide, (arange_spec 0 10 2 (by decide)).2.2.1⟩

/-- Claim C9: for every element count n of at least 1, Linspace with the
endpoint included fills n values of the form start + i * (stop-start)/(n-1)
(so the first is start and, for n of at least 2, the last is stop), and with
the endpoint excluded uses step (stop-start)/n; for n = 1 the single element
is start; in particular Linspace 0 1 5 with endpoint gives
[0, 1/4, 1/2, 3/4, 1] and without gives [0, 1/5, 2/5, 3/5, 4/5]. -/
theorem linspace_eq (start stop : ℚ) (n : Nat) (ep : Bool) (h1 : n ≠ 1) :
    Linspace start stop n ep = (List.range n).map (fun (i : Nat) => start + (i : ℚ) *
      (if ep then (stop - start) / ((n : ℚ) - 1) else (stop - start) / (n : ℚ))) := by
  rw [Linspace, if_neg h1]

theorem linspace_spec (start stop : ℚ) (n : Nat) (h : 1 ≤ n) :
    (Linspace start stop n true).length = n ∧
    (Linspace start stop n false).length = n ∧
    (∀ i : Nat, i < n → (Linspace start stop n true).getD i 0 =
      start + (i : ℚ) * ((stop - start) / ((n : ℚ) - 1))) ∧
    (∀ i : Nat, i < n → (Linspace start stop n false).getD i 0 =
      start + (i : ℚ) * ((stop - start) / (n : ℚ))) ∧
    (n = 1 → Linspace start stop n true = [start] ∧
      Linspace start stop n false = [start]) ∧
    (2 ≤ n → (Linspace start stop n true).getD 0 0 = start ∧
      (Linspace start stop n true).getD (n - 1) 0 = stop) ∧
    Linspace 0 1 5 true = [0, 1/4, 1/2, 3/4, 1] ∧
    Linspace 0 1 5 false = [0, 1/5, 2/5, 3/5, 4/5] := by
  by_cases h1 : n = 1
  · subst h1
    refine ⟨rfl, rfl, ?_, ?_, fun _ => ⟨rfl, rfl⟩, by omega, ?_, ?_⟩
    · intro i hi
      interval_cases i
      simp [Linspace]
    · intro i hi
      interval_cases i
      simp [Linspace]
    · rw [Linspace]
      norm_num [List.range_succ]
    · rw [Linspace]
      norm_num [List.range_succ]
  · have h2 : 2 ≤ n := by omega
    have hne : ((n : ℚ) - 1) ≠ 0 := by
      have : (2 : ℚ) ≤ (n : ℚ) := by exact_mod_cast h2
      intro hc
      nlinarith
    refine ⟨?_, ?_, ?_, ?_, fun hc => absurd hc h1, fun _ => ⟨?_, ?_⟩, ?_, ?_⟩
    · rw [linspace_eq start stop n true h1]
      simp
    · rw [linspace_eq start stop n false h1]
      simp
    · intro i hi
      rw [linspace_eq start stop n true h1, getD_range_map _ 0 n i hi, if_pos rfl]
    · intro i hi
      rw [linspace_eq start stop n false h1, getD_range_map _ 0 n i hi]
      norm_num
    · rw [linspace_eq start stop n true h1, getD_range_map _ 0 n 0 (by omega)]
      simp
    · rw [linspace_eq start stop n true h1, getD_range_map _ 0 n (n - 1) (by omega)]
      have hcast : ((n - 1 : Nat) : ℚ) = (n : ℚ) - 1 := by
        push_cast [h]
        ring
      rw [if_pos rfl, hcast]
      field_simp
    · rw [Linspace]
      norm_num [List.range_succ]
    · rw [Linspace]
      norm_num [List.range_succ]

theorem linspace_spec_witness :
    (1 : Nat) ≤ 5 ∧ Linspace 0 1 5 true = [0, 1/4, 1/2, 3/4, 1] :=
  ⟨by decide, (linspace_spec 0 1 5 (by decide)).2.2.2.2.2.2.1⟩

/-- Claim C3: Eye returns an n-by-m 2-dimensional array (m defaulting to n,
k defaulting to 0, dtype defaulting to a floating default) carrying the
requested dtype, with ones along the k-th diagonal and zeros elsewhere; the
diagonal may run off either edge and m need not equal n. -/
theorem eye_spec (n m : Nat) (k : Int) (dt : Dtype) (dev : Nat) (st : Store) (fresh : Nat) :
    (Eye n (some m) (some k) (some dt) dev st fresh).1.shape = [n, m] ∧
    (Eye n (some m) (some k) (some dt) dev st fresh).1.dtype = dt ∧
    Eye n none none none dev st fresh =
      Eye n (some n) (some 0) (some defaultFloatDtype) dev st fresh ∧
    defaultFloatDtype.isFloating = true ∧
    (∀ i j : Nat, i < n → j < m →
      elemAt (Eye n (some m) (some k) (some dt) dev st fresh).2
        (Eye n (some m) (some k) (some dt) dev st fresh).1 [i, j] =
        if (i : Int) + k = (j : Int) then 1 else 0) := by
  refine ⟨rfl, rfl, rfl, rfl, ?_⟩
  intro i j hi hj
  have hv : validIdx [n, m] [i, j] = true := by
    simp [validIdx, hi, hj]
  exact elemAt_fillByIndex st (Empty [n, m] dt dev fresh)
    (fun idx => match idx with
      | [i, j] => if (i : Int) + k = (j : Int) then 1 else 0
      | _ => 0) [i, j]
    (Empty_isContiguous [n, m] dt dev fresh) hv

theorem eye_spec_witness :
    (2 : Nat) < 3 ∧ (3 : Nat) < 4 ∧
    elemAt (Eye 3 (some 4) (some 1) (some Dtype.float32) 0 (fun _ _ => 0) 7).2
      (Eye 3 (some 4) (some 1) (some Dtype.float32) 0 (fun _ _ => 0) 7).1 [2, 3] =
      if (2 : Int) + 1 = (3 : Int) then 1 else 0 :=
  ⟨by decide, by decide,
    (eye_spec 3 4 1 Dtype.float32 0 (fun _ _ => 0) 7).2.2.2.2 2 3 (by decide) (by decide)⟩

/-- Claim C8: the Like constructors produce an array with the source's shape
and dtype on the device passed as argument, never inspecting the source's
device: two sources agreeing in shape and dtype but living on different
devices yield identical results. -/
theorem like_spec (a a2 : NdArray) (dev : Nat) (st : Store) (fresh : Nat)
    (hs : a.shape = a2.shape) (hd : a.dtype = a2.dtype) :
    (EmptyLike a dev fresh).device = dev ∧
    (EmptyLike a dev fresh).shape = a.shape ∧
    (EmptyLike a dev fresh).dtype = a.dtype ∧
    (∀ fill : Int, (FullLike a fill dev st fresh).1.device = dev) ∧
    (ZerosLike a dev st fresh).1.device = dev ∧
    (OnesLike a dev st fresh).1.device = dev ∧
    EmptyLike a dev fresh = EmptyLike a2 dev fresh ∧
    (∀ fill : Int, FullLike a fill dev st fresh = FullLike a2 fill dev st fresh) ∧
    ZerosLike a dev st fresh = ZerosLike a2 dev st fresh ∧
    OnesLike a dev st fresh = OnesLike a2 dev st fresh := by
  have hE : EmptyLike a dev fresh = EmptyLike a2 dev fresh := by
    rw [EmptyLike, EmptyLike, hs, hd]
  have hF : ∀ fill : Int, FullLike a fill dev st fresh = FullLike a2 fill dev st fresh := by
    intro fill
    rw [FullLike, FullLike, hs, hd]
  exact ⟨rfl, rfl, rfl, fun _ => rfl, rfl, rfl, hE, hF, hF 0, hF 1⟩

theorem like_spec_witness :
    (⟨[2], [8], Dtype.int64, 0, 3, 0⟩ : NdArray).shape =
      (⟨[2], [8], Dtype.int64, 0, 9, 1⟩ : NdArray).shape ∧
    EmptyLike ⟨[2], [8], Dtype.int64, 0, 3, 0⟩ 0 5 =
      EmptyLike ⟨[2], [8], Dtype.int64, 0, 9, 1⟩ 0 5 :=
  ⟨by decide,
    (like_spec ⟨[2], [8], Dtype.int64, 0, 3, 0⟩ ⟨[2], [8], Dtype.int64, 0, 9, 1⟩
      0 (fun _ _ => 0) 5 (by decide) (by decide)).2.2.2.2.2.2.1⟩

/-- Claim C5: Copy returns a new C-contiguous array with the source's shape,
dtype and element values, on the source's device, over storage distinct from
the source's (the fresh storage id comes from the allocator), so that
overwriting the copy's storage never changes any element read of the
source. -/
theorem copy_spec (a : NdArray) (st : Store) (fresh : Nat) (h : fresh ≠ a.sid) :
    (Copy a st fresh).1.shape = a.shape ∧
    (Copy a st fresh).1.dtype = a.dtype ∧
    (Copy a st fresh).1.device = a.device ∧
    (Copy a st fresh).1.IsContiguous = true ∧
    (Copy a st fresh).1.sid ≠ a.sid ∧
    (∀ idx : List Nat, validIdx a.shape idx = true →
      elemAt (Copy a st fresh).2 (Copy a st fresh).1 idx = elemAt st a idx) ∧
    (∀ buf : Int → Int, ∀ idx : List Nat,
      elemAt (writeStore (Copy a st fresh).2 (Copy a st fresh).1.sid buf) a idx =
        elemAt st a idx) := by
  refine ⟨rfl, rfl, rfl, Empty_isContiguous a.shape a.dtype a.device fresh, h, ?_, ?_⟩
  · intro idx hv
    exact elemAt_fillByIndex st (EmptyLike a a.device fresh)
      (fun idx => elemAt st a idx) idx
      (Empty_isContiguous a.shape a.dtype a.device fresh) hv
  · intro buf idx
    have h1 : elemAt (writeStore (Copy a st fresh).2 (Copy a st fresh).1.sid buf) a idx =
        elemAt (Copy a st fresh).2 a idx :=
      elemAt_writeStore_ne _ a fresh buf idx h
    have h2 : elemAt (Copy a st fresh).2 a idx = elemAt st a idx :=
      elemAt_fillByIndex_other st (EmptyLike a a.device fresh) a
        (fun idx => elemAt st a idx) idx h
    exact h1.trans h2

theorem copy_spec_witness :
    (1 : Nat) ≠ (⟨[2], [8], Dtype.int64, 0, 0, 0⟩ : NdArray).sid ∧
    (Copy ⟨[2], [8], Dtype.int64, 0, 0, 0⟩ (fun _ _ => 0) 1).1.sid ≠
      (⟨[2], [8], Dtype.int64, 0, 0, 0⟩ : NdArray).sid :=
  ⟨by decide,
    (copy_spec ⟨[2], [8], Dtype.int64, 0, 0, 0⟩ (fun _ _ => 0) 1 (by decide)).2.2.2.2.1⟩

theorem asContiguousArray_passthrough (b : NdArray) (dt? : Option Dtype) (st : Store)
    (f : Nat) (hc : b.IsContiguous = true) (hdt : b.dtype = dt?.getD b.dtype)
    (hsh : b.shape ≠ []) : AsContiguousArray b dt? st f = (b, st) := by
  have hcond : (b.IsContiguous && b.dtype == dt?.getD b.dtype) = true := by
    simp [hc, ← hdt]
  simp only [AsContiguousArray]
  rw [if_pos hcond, if_neg hsh]

theorem asContiguous_alloc (a : NdArray) (dtv : Dtype) (st : Store) (f : Nat)
    (hcond : (a.IsContiguous && a.dtype == dtv) = false) :
    AsContiguous a dtv st f =
      (Empty a.shape dtv a.device f, CopyOpCall st a (Empty a.shape dtv a.device f)) := by
  rw [AsContiguous, if_neg]
  rw [hcond]
  exact Bool.false_ne_true

theorem asContiguousArray_result (a : NdArray) (dt? : Option Dtype) (st : Store) (f : Nat) :
    (AsContiguousArray a dt? st f).1.IsContiguous = true ∧
    (AsContiguousArray a dt? st f).1.dtype = dt?.getD a.dtype ∧
    (AsContiguousArray a dt? st f).1.shape ≠ [] := by
  simp only [AsContiguousArray]
  by_cases hcond : (a.IsContiguous && a.dtype == dt?.getD a.dtype) = true
  · have hc : a.IsContiguous = true := by
      exact (Bool.and_eq_true _ _).mp hcond |>.1
    have hdt : a.dtype = dt?.getD a.dtype := by
      have := (Bool.and_eq_true _ _).mp hcond |>.2
      exact beq_iff_eq.mp this
    rw [if_pos hcond]
    by_cases hsh : a.shape = []
    · rw [if_pos hsh]
      refine ⟨?_, hdt, by simp⟩
      have hoff : a.offset = 0 := by
        simp only [NdArray.IsContiguous, Bool.and_eq_true, decide_eq_true_eq] at hc
        exact hc.2
      simp [NdArray.IsContiguous, contiguousStrides, hoff, ← hdt]
    · rw [if_neg hsh]
      exact ⟨hc, hdt, hsh⟩
  · rw [if_neg hcond]
    have hfalse : (a.IsContiguous && a.dtype == dt?.getD a.dtype) = false :=
      Bool.eq_false_iff.mpr hcond
    rw [asContiguous_alloc a (dt?.getD a.dtype) st f hfalse]
    refine ⟨?_, rfl, ?_⟩
    · simp [NdArray.IsContiguous, Empty]
    · by_cases hsh : a.shape = [] <;> simp [hsh]

/-- Claim C7: for every array whose shape is the 0-dimensional scalar shape,
AsContiguousArray returns an array of shape [1] rather than a scalar
shape. -/
theorem asContiguousArray_scalar (a : NdArray) (dt? : Option Dtype) (st : Store)
    (f : Nat) (h : a.shape = []) : (AsContiguousArray a dt? st f).1.shape = [1] := by
  simp only [AsContiguousArray]
  by_cases hcond : (a.IsContiguous && a.dtype == dt?.getD a.dtype) = true
  · rw [if_pos hcond, if_pos h]
  · rw [if_neg hcond]
    simp [h]

theorem asContiguousArray_scalar_witness :
    (⟨[], [], Dtype.float32, 0, 0, 0⟩ : NdArray).shape = [] ∧
    (AsContiguousArray ⟨[], [], Dtype.float32, 0, 0, 0⟩ none (fun _ _ => 0) 1).1.shape = [1] :=
  ⟨by decide,
    asContiguousArray_scalar ⟨[], [], Dtype.float32, 0, 0, 0⟩ none (fun _ _ => 0) 1 (by decide)⟩

/-- Claim C4 counterexample: the claim says that an already C-contiguous
array of matching dtype is returned as-is; a 0-dimensional contiguous array
refutes it, since the result has shape [1] while the input has shape [],
even though the storage is shared. -/
theorem asContiguousArray_counterexample :
    (⟨[], [], Dtype.float32, 0, 0, 0⟩ : NdArray).IsContiguous = true ∧
    (AsContiguousArray ⟨[], [], Dtype.float32, 0, 0, 0⟩ none (fun _ _ => 0) 1).1 ≠
      ⟨[], [], Dtype.float32, 0, 0, 0⟩ := by
  constructor
  · decide
  · intro hcontra
    have hsh : (AsContiguousArray ⟨[], [], Dtype.float32, 0, 0, 0⟩ none
        (fun _ _ => 0) 1).1.shape = [] := by rw [hcontra]
    have hval : (AsContiguousArray ⟨[], [], Dtype.float32, 0, 0, 0⟩ none
        (fun _ _ => 0) 1).1.shape = [1] := by decide
    rw [hval] at hsh
    exact absurd hsh (by decide)

/-- Claim C4 (amended): AsContiguousArray is idempotent: applying it a second
time returns the first result identically with no allocation or copy; an
already C-contiguous array of matching dtype and nonzero dimensionality is
returned as-is with its storage and store untouched; a 0-dimensional
contiguous array of matching dtype keeps its storage (no copy, store
untouched) but is reshaped to shape [1]. -/
theorem asContiguousArray_spec (a : NdArray) (dt? : Option Dtype) (st st2 : Store)
    (f1 f2 : Nat) :
    AsContiguousArray (AsContiguousArray a dt? st f1).1 dt? st2 f2 =
      ((AsContiguousArray a dt? st f1).1, st2) ∧
    (a.IsContiguous = true → a.dtype = dt?.getD a.dtype → a.shape ≠ [] →
      AsContiguousArray a dt? st f1 = (a, st)) ∧
    (a.IsContiguous = true → a.dtype = dt?.getD a.dtype → a.shape = [] →
      (AsContiguousArray a dt? st f1).1.shape = [1] ∧
      (AsContiguousArray a dt? st f1).1.sid = a.sid ∧
      (AsContiguousArray a dt? st f1).2 = st) := by
  obtain ⟨hrc, hrd, hrs⟩ := asContiguousArray_result a dt? st f1
  refine ⟨?_, ?_, ?_⟩
  · have hdt2 : (AsContiguousArray a dt? st f1).1.dtype =
        dt?.getD (AsContiguousArray a dt? st f1).1.dtype := by
      cases dt? with
      | none => rfl
      | some d => rw [hrd]; rfl
    exact asContiguousArray_passthrough _ dt? st2 f2 hrc hdt2 hrs
  · intro hc hdt hsh
    exact asContiguousArray_passthrough a dt? st f1 hc hdt hsh
  · intro hc hdt hsh
    have hcond : (a.IsContiguous && a.dtype == dt?.getD a.dtype) = true := by
      simp [hc, ← hdt]
    simp only [AsContiguousArray]
    rw [if_pos hcond, if_pos hsh]
    exact ⟨rfl, rfl, rfl⟩

theorem asContiguousArray_spec_witness :
    (⟨[2, 3], [12, 4], Dtype.float32, 0, 0, 4⟩ : NdArray).IsContiguous = true ∧
    AsContiguousArray ⟨[2, 3], [12, 4], Dtype.float32, 0, 0, 4⟩ none (fun _ _ => 0) 9 =
      (⟨[2, 3], [12, 4], Dtype.float32, 0, 0, 4⟩, (fun _ _ => 0)) :=
  ⟨by decide,
    (asContiguousArray_spec ⟨[2, 3], [12, 4], Dtype.float32, 0, 0, 4⟩ none
      (fun _ _ => 0) (fun _ _ => 0) 9 9).2.1 (by decide) (by decide) (by decide)⟩

/-- Claim C10: Diagflat, and Diag on a 1-dimensional source, allocate their
output on the device passed as argument (whose C++ default is
GetDefaultDevice), never on the source's device; for a source residing on a
non-default device and the device argument left to its default, the result
resides on a device different from the source's. -/
theorem diagflat_device (v : NdArray) (k : Int) (dev : Nat) (st : Store) (fresh : Nat) :
    (Diagflat v k dev st fresh).1.device = dev ∧
    (Diagflat v k dev st fresh).1.shape =
      [v.shape.prod + k.natAbs, v.shape.prod + k.natAbs] ∧
    (v.shape.length = 1 → (Diag v k dev st fresh).1.device = dev) ∧
    (v.device ≠ GetDefaultDevice →
      (Diagflat v k GetDefaultDevice st fresh).1.device ≠ v.device ∧
      (v.shape.length = 1 →
        (Diag v k GetDefaultDevice st fresh).1.device ≠ v.device)) := by
  refine ⟨rfl, rfl, ?_, ?_⟩
  · intro h1
    rw [Diag, if_pos h1]
    rfl
  · intro hnd
    have hD : (Diagflat v k GetDefaultDevice st fresh).1.device = GetDefaultDevice := rfl
    refine ⟨by rw [hD]; exact Ne.symm hnd, ?_⟩
    intro h1
    rw [Diag, if_pos h1, hD]
    exact Ne.symm hnd

theorem diagflat_device_witness :
    (⟨[2], [8], Dtype.int64, 0, 5, 0⟩ : NdArray).device ≠ GetDefaultDevice ∧
    (Diagflat ⟨[2], [8], Dtype.int64, 0, 5, 0⟩ 1 GetDefaultDevice
      (fun _ _ => 0) 3).1.device ≠ (⟨[2], [8], Dtype.int64, 0, 5, 0⟩ : NdArray).device :=
  ⟨by decide,
    ((diagflat_device ⟨[2], [8], Dtype.int64, 0, 5, 0⟩ 1 GetDefaultDevice
      (fun _ _ => 0) 3).2.2.2 (by decide)).1⟩

end Chainerx
